import Mathlib

/-!
Verification development for the page compression layer of
`fil/fil0pagecompress.cc` (`fil_compress_page` / `fil_decompress_page`).

Byte buffers are modelled as `List Nat` (one entry per byte); multi-byte
fields are big-endian, as produced by `mach_write_to_n` and consumed by
`mach_read_from_n`.  The external codec primitives (zlib, lz4, lzo, lzma,
bzip2, snappy) are third-party libraries, not part of this repository;
they are modelled as an abstract `Codec` structure, and round-trip facts
are proved relative to the codec's own round-trip contract.
-/

set_option maxRecDepth 100000

/-- Splice the byte list `v` into `b` starting at offset `off`: the model of
writing a contiguous region of a C byte buffer (`memcpy(b + off, v, n)`). -/
def writeBytes (b : List Nat) (off : Nat) (v : List Nat) : List Nat :=
  b.take off ++ v ++ b.drop (off + v.length)

/-- Big-endian encoding of `v` on `n` bytes (most significant byte first),
the layout produced by `mach_write_to_n`. -/
def beBytes : Nat → Nat → List Nat
  | 0, _ => []
  | n + 1, v => beBytes n (v / 256) ++ [v % 256]

/-- Value of a big-endian byte list, the accumulator loop of `mach_read_from_n`. -/
def valBE (l : List Nat) : Nat := l.foldl (fun a c => a * 256 + c) 0

/-- Read `n` bytes big-endian at offset `off` of buffer `b`. -/
def readBE (b : List Nat) (off n : Nat) : Nat :=
  (List.range n).foldl (fun a i => a * 256 + b.getD (off + i) 0) 0

/-- Modelled from the spec: the numeric header offsets and page-type tags come
from the page-format declarations (fil0fil.h, buf0buf.h), which the sampled
sources use but do not contain; the spec fixes the field sizes and their
relative layout, and these are the stable on-disk constants they refer to. -/
def FIL_PAGE_SPACE_OR_CHKSUM : Nat := 0

def FIL_PAGE_TYPE : Nat := 24

def FIL_PAGE_FILE_FLUSH_LSN_OR_KEY_VERSION : Nat := 26

def FIL_PAGE_DATA : Nat := 38

def FIL_PAGE_COMPRESSED_SIZE : Nat := 2

def FIL_PAGE_COMPRESSION_METHOD_SIZE : Nat := 2

def FIL_PAGE_PAGE_COMPRESSED : Nat := 34354

def FIL_PAGE_PAGE_COMPRESSED_ENCRYPTED : Nat := 37401

def FIL_PAGE_TYPE_FSP_HDR : Nat := 8

def FIL_PAGE_TYPE_XDES : Nat := 9

def BUF_NO_CHECKSUM_MAGIC : Nat := 0xDEADBEEF

def PAGE_UNCOMPRESSED : Nat := 0

def PAGE_ZLIB_ALGORITHM : Nat := 1

def mach_write_to_2 (b : List Nat) (off v : Nat) : List Nat :=
  writeBytes b off (beBytes 2 v)

def mach_write_to_4 (b : List Nat) (off v : Nat) : List Nat :=
  writeBytes b off (beBytes 4 v)

def mach_write_to_8 (b : List Nat) (off v : Nat) : List Nat :=
  writeBytes b off (beBytes 8 v)

def mach_read_from_2 (b : List Nat) (off : Nat) : Nat := readBE b off 2

def mach_read_from_4 (b : List Nat) (off : Nat) : Nat := readBE b off 4

def mach_read_from_8 (b : List Nat) (off : Nat) : Nat := readBE b off 8

/-- fil_page_get_type: the page-type tag at FIL_PAGE_TYPE. -/
def fil_page_get_type (b : List Nat) : Nat := mach_read_from_2 b FIL_PAGE_TYPE

/-- Modelled from the spec: an externally supplied codec primitive pair
(zlib, lz4, lzo, lzma, bzip2 or snappy, all third-party libraries).
`comp page level cap` compresses `page` with output capacity `cap` and
returns the payload, or `none` for an error status; `decomp payload cap`
decompresses `payload` into a buffer of capacity `cap`. -/
structure Codec where
  comp : List Nat → Nat → Nat → Option (List Nat)
  decomp : List Nat → Nat → Option (List Nat)

/-- The ambient configuration read by fil_compress_page / fil_decompress_page:
UNIV_PAGE_SIZE, innodb_compression_algorithm, page_zip_level, srv_use_trim,
and the registry of linked-in codecs keyed by algorithm id. -/
structure PCEnv where
  psize : Nat
  comp_method : Nat
  page_zip_level : Nat
  srv_use_trim : Bool
  algos : Nat → Option Codec

/-- The page types rejected by the switch at the top of fil_compress_page
(lines 275-282): 0, FIL_PAGE_TYPE_FSP_HDR, FIL_PAGE_TYPE_XDES,
FIL_PAGE_PAGE_COMPRESSED. -/
def ineligibleType (pt : Nat) : Prop :=
  pt = 0 ∨ pt = FIL_PAGE_TYPE_FSP_HDR ∨ pt = FIL_PAGE_TYPE_XDES ∨
    pt = FIL_PAGE_PAGE_COMPRESSED

instance (pt : Nat) : Decidable (ineligibleType pt) := by
  unfold ineligibleType; infer_instance

/-- header_len of fil_compress_page: FIL_PAGE_DATA + FIL_PAGE_COMPRESSED_SIZE,
plus FIL_PAGE_COMPRESSION_METHOD_SIZE when the page is also encrypted. -/
def pageHeaderLen (encrypted : Bool) : Nat :=
  FIL_PAGE_DATA + FIL_PAGE_COMPRESSED_SIZE +
    (if encrypted then FIL_PAGE_COMPRESSION_METHOD_SIZE else 0)

/-- Effective compression level: an explicit non-zero request wins, otherwise
the process-wide default page_zip_level (lines 286-288). -/
def resolveLevel (env : PCEnv) (level : Nat) : Nat :=
  if level = 0 then env.page_zip_level else level

/-- ut_uint64_align_up. The source uses the power-of-two mask form
`(v + a - 1) & ~(a - 1)`, which agrees with rounding up to a multiple for the
power-of-two block sizes it is called with. -/
def alignUp (v a : Nat) : Nat := (v + a - 1) / a * a

/-- The compression-side codec invocation (the arms of the switch at lines
296-398).  Each arm calls the codec's compress primitive with capacity
UNIV_PAGE_SIZE - header_len and jumps to err_exit when the primitive reports
an error status (for LZ4 a zero result length) or the produced payload
exceeds the capacity. -/
def codecCompress (c : Codec) (buf : List Nat) (level cap : Nat) :
    Option (List Nat) :=
  match c.comp buf level cap with
  | none => none
  | some pl => if pl.length = 0 ∨ pl.length > cap then none else some pl

/-- Outcome tag of a fil_compress_page call: success, err_exit fallback,
the PAGE_UNCOMPRESSED pass-through, or the ut_error abort on an unknown
algorithm id. -/
inductive CompOutcome
  | ok
  | fallback
  | passthrough
  | utError
deriving DecidableEq

/-- Observable result of one fil_compress_page call: the returned page
contents, *out_len, which counters were incremented, how much
page_compression_saved grew, whether the per-tablespace warning was emitted,
and the tablespace's printed_compression_failure flag afterwards. -/
structure CompResult where
  page : List Nat
  out_len : Nat
  outcome : CompOutcome
  codec_called : Bool
  compressed_inc : Bool
  error_inc : Bool
  saved : Nat
  warned : Bool
  space' : Option Bool
deriving DecidableEq

/-- The err_exit path of fil_compress_page (lines 504-531): return the page
as it was with *out_len = len, warn once per tablespace, and increment
pages_page_compression_error. -/
def errExitResult (space : Option Bool) (buf : List Nat) (len : Nat)
    (called : Bool) : CompResult :=
  { page := buf, out_len := len, outcome := .fallback, codec_called := called,
    compressed_inc := false, error_inc := true, saved := 0,
    warned := match space with | some p => !p | none => false,
    space' := space.map fun _ => true }

/-- The PAGE_UNCOMPRESSED arm (lines 400-403): return buf with
*out_len = len, touching nothing. -/
def passthroughResult (space : Option Bool) (buf : List Nat) (len : Nat) :
    CompResult :=
  { page := buf, out_len := len, outcome := .passthrough, codec_called := false,
    compressed_inc := false, error_inc := false, saved := 0,
    warned := false, space' := space }

/-- The `default: ut_error` arm (lines 404-406): process abort on an
unregistered compression algorithm. -/
def utErrorResult (space : Option Bool) (buf : List Nat) (len : Nat) :
    CompResult :=
  { page := buf, out_len := len, outcome := .utError, codec_called := false,
    compressed_inc := false, error_inc := false, saved := 0,
    warned := false, space' := space }

/-- Header assembly of fil_compress_page (lines 409-427): copy the first
FIL_PAGE_DATA bytes of the original page, write BUF_NO_CHECKSUM_MAGIC in the
checksum field, the 8-byte algorithm id at
FIL_PAGE_FILE_FLUSH_LSN_OR_KEY_VERSION, the page-type marker, for the
encrypted variant the redundant 2-byte algorithm id after the payload-length
field, and finally the 2-byte payload length `w` at FIL_PAGE_DATA. -/
def fil_page_header_write (buf obuf : List Nat) (comp_method w : Nat)
    (encrypted : Bool) : List Nat :=
  let o1 := writeBytes obuf 0 (buf.take FIL_PAGE_DATA)
  let o2 := mach_write_to_4 o1 FIL_PAGE_SPACE_OR_CHKSUM BUF_NO_CHECKSUM_MAGIC
  let o3 := mach_write_to_8 o2 FIL_PAGE_FILE_FLUSH_LSN_OR_KEY_VERSION comp_method
  let o4 :=
    if encrypted then
      mach_write_to_2
        (mach_write_to_2 o3 FIL_PAGE_TYPE FIL_PAGE_PAGE_COMPRESSED_ENCRYPTED)
        (FIL_PAGE_DATA + FIL_PAGE_COMPRESSED_SIZE) comp_method
    else
      mach_write_to_2 o3 FIL_PAGE_TYPE FIL_PAGE_PAGE_COMPRESSED
  mach_write_to_2 o4 FIL_PAGE_DATA w

/-- Header parsing of fil_decompress_page (lines 561-609): the ptype switch
selecting header_len, the 2-byte payload length at FIL_PAGE_DATA, and the
algorithm id (2-byte redundant field for the encrypted variant, 8-byte field
otherwise).  Returns (header_len, actual_size, compression_alg), or none when
the type marker matches neither compressed variant. -/
def fil_page_header_read (buf : List Nat) : Option (Nat × Nat × Nat) :=
  let ptype := mach_read_from_2 buf FIL_PAGE_TYPE
  if ptype = FIL_PAGE_PAGE_COMPRESSED_ENCRYPTED then
    some (FIL_PAGE_DATA + FIL_PAGE_COMPRESSED_SIZE +
        FIL_PAGE_COMPRESSION_METHOD_SIZE,
      mach_read_from_2 buf FIL_PAGE_DATA,
      mach_read_from_2 buf (FIL_PAGE_DATA + FIL_PAGE_COMPRESSED_SIZE))
  else if ptype = FIL_PAGE_PAGE_COMPRESSED then
    some (FIL_PAGE_DATA + FIL_PAGE_COMPRESSED_SIZE,
      mach_read_from_2 buf FIL_PAGE_DATA,
      mach_read_from_8 buf FIL_PAGE_FILE_FLUSH_LSN_OR_KEY_VERSION)
  else none

/-- The success tail of fil_compress_page (payload already produced by the
codec): write the payload behind the header (the codec arm wrote it at
out_buf+header_len before the header was assembled), assemble the header,
align header_len + payload up to the block size zero-filling the gap (lines
459-477, block size defaulting to 512 when 0), account the statistics, and
when srv_use_trim is unset zero the remainder and report the full page length
(lines 487-492). -/
def blockSizeOf (block_size : Nat) : Nat :=
  if block_size = 0 then 512 else block_size

/-- The aligned physical size: header_len + payload rounded up to the block
size, performed by the source only when the sum is not already aligned. -/
def alignedSize (ws0 bs : Nat) : Nat :=
  if ws0 % bs = 0 then ws0 else alignUp ws0 bs

def compressOkResult (env : PCEnv) (space : Option Bool) (buf obuf : List Nat)
    (len block_size : Nat) (encrypted : Bool) (pl : List Nat) : CompResult :=
  let header_len := pageHeaderLen encrypted
  let out1 := writeBytes obuf header_len pl
  let out2 := fil_page_header_write buf out1 env.comp_method pl.length encrypted
  let ws0 := pl.length + header_len
  let bs := blockSizeOf block_size
  let ws1 := alignedSize ws0 bs
  let out3 := if ws0 % bs = 0 then out2
    else writeBytes out2 ws0 (List.replicate (ws1 - ws0) 0)
  let ws2 := if env.srv_use_trim then ws1 else len
  let out4 := if env.srv_use_trim then out3
    else writeBytes out3 ws1 (List.replicate (len - ws1) 0)
  { page := out4, out_len := ws2, outcome := .ok, codec_called := true,
    compressed_inc := true, error_inc := false, saved := len - ws1,
    warned := false, space' := space }

/-- fil_compress_page (lines 213-532).  `space` is none during IMPORT,
otherwise carries the tablespace's printed_compression_failure flag; `obuf`
is the output buffer (the !out_buf allocation path copies the same contents
back into buf, so the returned contents are identical and the UNIV_DEBUG-only
self-check block is compiled out). -/
def fil_compress_page (env : PCEnv) (space : Option Bool) (buf obuf : List Nat)
    (len level block_size : Nat) (encrypted : Bool) : CompResult :=
  if ineligibleType (fil_page_get_type buf) then
    errExitResult space buf len false
  else if env.comp_method = PAGE_UNCOMPRESSED then
    passthroughResult space buf len
  else
    match env.algos env.comp_method with
    | none => utErrorResult space buf len
    | some c =>
        match codecCompress c buf (resolveLevel env level)
            (env.psize - pageHeaderLen encrypted) with
        | none => errExitResult space buf len true
        | some pl => compressOkResult env space buf obuf len block_size encrypted pl

/-- The corruption conditions fil_decompress_page can detect. -/
inductive CorruptKind
  | badMarker
  | badSize
  | unknownAlg
  | codecFail
deriving DecidableEq

/-- Outcome of a fil_decompress_page call: pass-through of a page that is not
in the compressed format, success, the error_return path taken because
return_error was requested, the ut_error abort (checksum / size corruption
with return_error unset), or the err_exit path whose trailing ut_ad(0)
asserts in debug builds regardless of return_error. -/
inductive DecompOutcome
  | notCompressed
  | ok
  | reported (k : CorruptKind)
  | fatalError (k : CorruptKind)
  | assertFail (k : CorruptKind)
deriving DecidableEq

/-- Observable result of one fil_decompress_page call: the contents of the
in/out buffer afterwards, the outcome, the final value behind the write_size
out-pointer, and whether pages_page_decompressed was incremented. -/
structure DecompResult where
  buf : List Nat
  outcome : DecompOutcome
  write_size : Option Nat
  decompressed_inc : Bool
deriving DecidableEq

/-- The checksum / payload-size corruption checks (lines 584-621): honour
return_error via error_return, otherwise ut_error; the buffer is left
untouched either way. -/
def corruptResult (buf : List Nat) (ws : Option Nat) (return_error : Bool)
    (k : CorruptKind) : DecompResult :=
  { buf := buf, outcome := if return_error then .reported k else .fatalError k,
    write_size := ws, decompressed_inc := false }

/-- The err_exit path of fil_decompress_page (lines 774-792): diagnostic,
buf_page_print, ut_ad(0).  The `if (return_error)` statements that follow
each `goto err_exit` in the codec arms are unreachable, so this path is taken
regardless of return_error; the buffer is left untouched. -/
def assertFailResult (buf : List Nat) (ws : Option Nat) (k : CorruptKind) :
    DecompResult :=
  { buf := buf, outcome := .assertFail k, write_size := ws,
    decompressed_inc := false }

/-- The decompression-side codec invocation (the arms of the switch at lines
632-759): call the codec's decompress primitive with the output capacity
`len` (the zlib arm's uncompress bound) and treat a non-success status or an
output length of 0 or above UNIV_PAGE_SIZE (the olen checks of the other
arms) as a decode failure. -/
def codecDecompress (c : Codec) (payload : List Nat) (len psize : Nat) :
    Option (List Nat) :=
  match c.decomp payload len with
  | none => none
  | some out => if out.length = 0 ∨ out.length > psize then none else some out

/-- fil_decompress_page (lines 537-792).  `page_buf` is the caller's scratch
buffer or none (in which case a zeroed UNIV_PAGE_SIZE buffer is allocated);
`buf` holds the physical page and receives the decompressed page;
`write_size` models the optional out-pointer with its current value.  The
redundant ptype conjunct of the source's checksum check is kept as written
even though the earlier switch already matched it. -/
def fil_decompress_page (env : PCEnv) (page_buf : Option (List Nat))
    (buf : List Nat) (len : Nat) (write_size : Option Nat)
    (return_error : Bool) : DecompResult :=
  match fil_page_header_read buf with
  | none =>
      { buf := buf, outcome := .notCompressed, write_size := write_size,
        decompressed_inc := false }
  | some (header_len, actual_size, compression_alg) =>
      let in_buf := page_buf.getD (List.replicate env.psize 0)
      if mach_read_from_4 buf FIL_PAGE_SPACE_OR_CHKSUM ≠ BUF_NO_CHECKSUM_MAGIC
          ∨ (mach_read_from_2 buf FIL_PAGE_TYPE ≠ FIL_PAGE_PAGE_COMPRESSED
            ∧ mach_read_from_2 buf FIL_PAGE_TYPE ≠
              FIL_PAGE_PAGE_COMPRESSED_ENCRYPTED) then
        corruptResult buf write_size return_error .badMarker
      else if actual_size = 0 ∨ actual_size > env.psize then
        corruptResult buf write_size return_error .badSize
      else
        let ws := write_size.map fun _ => actual_size
        match env.algos compression_alg with
        | none => assertFailResult buf ws .unknownAlg
        | some c =>
            match codecDecompress c ((buf.drop header_len).take actual_size)
                len env.psize with
            | none => assertFailResult buf ws .codecFail
            | some out =>
                let in_buf1 := writeBytes in_buf 0 out
                { buf := writeBytes buf 0 (in_buf1.take out.length),
                  outcome := .ok, write_size := ws, decompressed_inc := true }

/-- One queued fil_compress_page invocation for a tablespace trace. -/
structure CompCall where
  buf : List Nat
  obuf : List Nat
  len : Nat
  level : Nat
  block_size : Nat
  encrypted : Bool

/-- A sequence of fil_compress_page calls against one tablespace, threading
its printed_compression_failure flag from call to call. -/
def compressTrace (env : PCEnv) (printed : Bool) : List CompCall → List CompResult
  | [] => []
  | c :: cs =>
      let r := fil_compress_page env (some printed) c.buf c.obuf c.len c.level
        c.block_size c.encrypted
      r :: compressTrace env ((r.space').getD printed) cs

/-- A concrete all-3 page of the given size; its page type 0x0303 is eligible
for compression. -/
def tpage (n : Nat) : List Nat := List.replicate n 3

/-- A concrete codec that compresses any page to the payload [1, 2] and
decompresses that payload back to the fixed page `p`. -/
def cPage (p : List Nat) : Codec where
  comp := fun _ _ cap => if 2 ≤ cap then some [1, 2] else none
  decomp := fun pl _ => if pl = [1, 2] then some p else none

/-- A concrete codec whose primitives always report an error. -/
def cFailCodec : Codec where
  comp := fun _ _ _ => none
  decomp := fun _ _ => none

/-- A concrete environment whose registry maps the zlib id to `cPage` for
pages of size `psize`. -/
def envA (psize : Nat) (trim : Bool) : PCEnv where
  psize := psize
  comp_method := PAGE_ZLIB_ALGORITHM
  page_zip_level := 6
  srv_use_trim := trim
  algos := fun n =>
    if n = PAGE_ZLIB_ALGORITHM then some (cPage (tpage psize)) else none

/-- A concrete environment whose registry maps the zlib id to the failing
codec. -/
def envFail (psize : Nat) : PCEnv where
  psize := psize
  comp_method := PAGE_ZLIB_ALGORITHM
  page_zip_level := 6
  srv_use_trim := true
  algos := fun n => if n = PAGE_ZLIB_ALGORITHM then some cFailCodec else none

/-- A concrete physical buffer whose header carries the compressed type
marker, the no-checksum magic, payload length 1, and the unregistered
algorithm id 99. -/
def c2buf : List Nat :=
  mach_write_to_2
    (mach_write_to_2
      (mach_write_to_4
        (mach_write_to_8 (List.replicate 64 5)
          FIL_PAGE_FILE_FLUSH_LSN_OR_KEY_VERSION 99)
        FIL_PAGE_SPACE_OR_CHKSUM BUF_NO_CHECKSUM_MAGIC)
      FIL_PAGE_TYPE FIL_PAGE_PAGE_COMPRESSED)
    FIL_PAGE_DATA 1

/-- A concrete all-zero page; its type tag 0 is ineligible for compression. -/
def zpage (n : Nat) : List Nat := List.replicate n 0

/-- A concrete fil_compress_page invocation whose page type is ineligible,
so that the call takes the err_exit path. -/
def cCall : CompCall where
  buf := zpage 64
  obuf := zpage 64
  len := 64
  level := 6
  block_size := 512
  encrypted := false

/-- A default CompResult used as the List.getD default. -/
def dResult : CompResult := passthroughResult none [] 0


theorem getD_append_left : ∀ (l₁ l₂ : List Nat) (i d : Nat), i < l₁.length →
    (l₁ ++ l₂).getD i d = l₁.getD i d
  | _ :: _, _, 0, _, _ => rfl
  | _ :: l₁, l₂, i + 1, d, h =>
      getD_append_left l₁ l₂ i d (by simpa using Nat.lt_of_succ_lt_succ h)
  | [], _, i, _, h => absurd h (by simp)

theorem getD_append_right : ∀ (l₁ l₂ : List Nat) (i d : Nat), l₁.length ≤ i →
    (l₁ ++ l₂).getD i d = l₂.getD (i - l₁.length) d
  | [], _, _, _, _ => by simp
  | _ :: l₁, l₂, i + 1, d, h => by
      simpa using getD_append_right l₁ l₂ i d (Nat.le_of_succ_le_succ h)
  | _ :: _, _, 0, _, h => absurd h (by simp)

theorem getD_take : ∀ (l : List Nat) (n i d : Nat), i < n →
    (l.take n).getD i d = l.getD i d
  | [], _, _, _, _ => by simp
  | _ :: _, _ + 1, 0, _, _ => rfl
  | a :: l, n + 1, i + 1, d, h => by
      simp only [List.take_cons, List.getD_cons_succ]
      exact getD_take l n i d (Nat.lt_of_succ_lt_succ h)
  | _ :: _, 0, _, _, h => absurd h (by simp)

theorem getD_drop : ∀ (l : List Nat) (n i d : Nat),
    (l.drop n).getD i d = l.getD (n + i) d
  | [], _, _, _ => by simp
  | _ :: _, 0, _, _ => by simp
  | _ :: l, n + 1, i, d => by
      simp only [List.drop_succ_cons, Nat.succ_add, List.getD_cons_succ]
      exact getD_drop l n i d

theorem length_take_of_le {l : List Nat} {n : Nat} (h : n ≤ l.length) :
    (l.take n).length = n := by
  simp [Nat.min_eq_left h]

theorem writeBytes_length {b v : List Nat} {off : Nat}
    (h : off + v.length ≤ b.length) :
    (writeBytes b off v).length = b.length := by
  simp only [writeBytes, List.length_append, List.length_take, List.length_drop]
  omega

theorem writeBytes_getD_lo {b v : List Nat} {off i d : Nat}
    (h : i < off) (hb : off ≤ b.length) :
    (writeBytes b off v).getD i d = b.getD i d := by
  unfold writeBytes
  rw [List.append_assoc] at *
  rw [getD_append_left _ _ _ _ (by rw [length_take_of_le hb]; exact h),
    getD_take _ _ _ _ h]

theorem writeBytes_getD_mid {b v : List Nat} {off i d : Nat}
    (h1 : off ≤ i) (h2 : i < off + v.length) (hb : off ≤ b.length) :
    (writeBytes b off v).getD i d = v.getD (i - off) d := by
  unfold writeBytes
  rw [List.append_assoc]
  rw [getD_append_right _ _ _ _ (by rw [length_take_of_le hb]; exact h1)]
  rw [length_take_of_le hb]
  exact getD_append_left _ _ _ _ (by omega)

theorem writeBytes_getD_hi {b v : List Nat} {off i d : Nat}
    (h : off + v.length ≤ i) (hb : off ≤ b.length) :
    (writeBytes b off v).getD i d = b.getD i d := by
  unfold writeBytes
  rw [List.append_assoc]
  rw [getD_append_right _ _ _ _ (by rw [length_take_of_le hb]; omega)]
  rw [getD_append_right _ _ _ _ (by simp; omega)]
  rw [getD_drop]
  congr 1
  simp [length_take_of_le hb]
  omega

theorem beBytes_length (n v : Nat) : (beBytes n v).length = n := by
  induction n generalizing v with
  | zero => rfl
  | succ n ih => simp [beBytes, ih]

theorem valBE_append_singleton (l : List Nat) (c : Nat) :
    valBE (l ++ [c]) = valBE l * 256 + c := by
  simp [valBE, List.foldl_append]

theorem valBE_beBytes (n v : Nat) : valBE (beBytes n v) = v % 256 ^ n := by
  induction n generalizing v with
  | zero => simp [beBytes, valBE, Nat.mod_one]
  | succ n ih =>
      rw [beBytes, valBE_append_singleton, ih]
      have h256 : 256 ^ (n + 1) = 256 * 256 ^ n := by ring
      rw [h256, Nat.mod_mul]
      ring

theorem readBE_eq_valBE {b : List Nat} {off n : Nat} {v : List Nat}
    (hv : v.length = n) (h : ∀ i, i < n → b.getD (off + i) 0 = v.getD i 0) :
    readBE b off n = valBE v := by
  subst hv
  induction v using List.reverseRecOn with
  | nil => simp [readBE, valBE]
  | append_singleton l c ih =>
      rw [readBE, valBE_append_singleton]
      simp only [List.length_append, List.length_singleton]
      rw [List.range_succ, List.foldl_append]
      have hl : readBE b off l.length = valBE l := by
        apply ih
        intro i hi
        rw [h i (by simp; omega)]
        rw [getD_append_left _ _ _ _ hi]
      rw [readBE] at hl
      rw [hl]
      simp only [List.foldl_cons, List.foldl_nil]
      congr 1
      rw [h l.length (by simp)]
      rw [getD_append_right _ _ _ _ (le_refl _)]
      simp

theorem readBE_writeBytes_beBytes {b : List Nat} {off n v : Nat}
    (hb : off ≤ b.length) :
    readBE (writeBytes b off (beBytes n v)) off n = v % 256 ^ n := by
  rw [readBE_eq_valBE (beBytes_length n v)
    (fun i hi => writeBytes_getD_mid (Nat.le_add_right _ _)
      (by rw [beBytes_length]; omega) hb |>.trans (by simp)),
    valBE_beBytes]

theorem getD_replicate {n a i d : Nat} :
    (List.replicate n a).getD i d = if i < n then a else d := by
  induction n generalizing i with
  | zero => simp
  | succ n ih =>
      cases i with
      | zero => simp [List.replicate_succ]
      | succ i =>
          simp only [List.replicate_succ, List.getD_cons_succ, ih]
          simp [Nat.add_lt_add_iff_right]

theorem readBE_congr {b₁ b₂ : List Nat} {off n : Nat}
    (h : ∀ i, i < n → b₁.getD (off + i) 0 = b₂.getD (off + i) 0) :
    readBE b₁ off n = readBE b₂ off n := by
  unfold readBE
  apply List.foldl_ext
  intro a x hx
  rw [h x (List.mem_range.mp hx)]

theorem readBE_write_above {b v : List Nat} {off n off2 : Nat}
    (h : off + n ≤ off2) (hb : off2 ≤ b.length) :
    readBE (writeBytes b off2 v) off n = readBE b off n :=
  readBE_congr fun i hi => writeBytes_getD_lo (by omega) hb

theorem readBE_write_below {b v : List Nat} {off n off2 : Nat}
    (h : off2 + v.length ≤ off) (hb : off2 ≤ b.length) :
    readBE (writeBytes b off2 v) off n = readBE b off n :=
  readBE_congr fun i _ => writeBytes_getD_hi (by omega) hb

theorem writeBytes_length_eq {b v : List Nat} {off L : Nat}
    (hb : b.length = L) (h : off + v.length ≤ L) :
    (writeBytes b off v).length = L := by
  rw [writeBytes_length (by omega), hb]

theorem segment_eq_of_getD {b pl : List Nat} {off : Nat}
    (hb : off + pl.length ≤ b.length)
    (h : ∀ i, i < pl.length → b.getD (off + i) 0 = pl.getD i 0) :
    (b.drop off).take pl.length = pl := by
  apply List.ext_getElem
  · simp; omega
  · intro i h1 h2
    have hi : i < pl.length := by simpa using h2
    have := h i hi
    rw [List.getD_eq_getElem _ _ (by omega), List.getD_eq_getElem _ _ hi] at this
    simpa using this

theorem alignUp_ge {v a : Nat} (ha : 0 < a) : v ≤ alignUp v a := by
  unfold alignUp
  rw [Nat.mul_comm]
  have h1 := Nat.div_add_mod (v + a - 1) a
  have h2 : (v + a - 1) % a < a := Nat.mod_lt _ ha
  omega

theorem alignUp_of_mod_eq_zero {v a : Nat} (ha : 0 < a) (h : v % a = 0) :
    alignUp v a = v := by
  obtain ⟨q, rfl⟩ := Nat.dvd_of_mod_eq_zero h
  unfold alignUp
  have h1 : a * q + a - 1 = a * q + (a - 1) := by omega
  have h3 : (a - 1) / a = 0 := Nat.div_eq_of_lt (by omega)
  rw [h1, Nat.mul_add_div ha, h3]
  ring

theorem alignUp_le_of_dvd {v a m : Nat} (ha : 0 < a) (hd : a ∣ m)
    (hv : v ≤ m) : alignUp v a ≤ m := by
  obtain ⟨k, rfl⟩ := hd
  unfold alignUp
  have h1 : (v + a - 1) / a ≤ (a * k + a - 1) / a :=
    Nat.div_le_div_right (by omega)
  have h2 : a * k + a - 1 = a * k + (a - 1) := by omega
  have h3 : (a - 1) / a = 0 := Nat.div_eq_of_lt (by omega)
  rw [h2, Nat.mul_add_div ha, h3] at h1
  calc (v + a - 1) / a * a ≤ k * a := Nat.mul_le_mul_right a (by omega)
  _ = a * k := Nat.mul_comm _ _

theorem codecCompress_some {c : Codec} {buf pl : List Nat} {level cap : Nat}
    (h : codecCompress c buf level cap = some pl) :
    c.comp buf level cap = some pl ∧ 1 ≤ pl.length ∧ pl.length ≤ cap := by
  unfold codecCompress at h
  cases hc : c.comp buf level cap with
  | none => rw [hc] at h; simp at h
  | some pl0 =>
      rw [hc] at h
      dsimp only at h
      by_cases h0 : pl0.length = 0 ∨ pl0.length > cap
      · rw [if_pos h0] at h; exact absurd h (by simp)
      · rw [if_neg h0] at h
        obtain rfl : pl0 = pl := by injection h
        push_neg at h0
        exact ⟨rfl, by omega, by omega⟩


theorem hw_len1 {buf obuf : List Nat} (hob : 42 ≤ obuf.length) :
    (writeBytes obuf 0 (List.take 38 buf)).length = obuf.length :=
  writeBytes_length (by simp [List.length_take]; omega)

theorem hw_len2 {buf obuf : List Nat} {M : Nat} (hob : 42 ≤ obuf.length) :
    (writeBytes (writeBytes obuf 0 (List.take 38 buf)) 0
      (beBytes 4 M)).length = obuf.length := by
  rw [writeBytes_length (by rw [beBytes_length, hw_len1 hob]; omega),
    hw_len1 hob]

theorem hw_len3 {buf obuf : List Nat} {M cm : Nat} (hob : 42 ≤ obuf.length) :
    (writeBytes (writeBytes (writeBytes obuf 0 (List.take 38 buf)) 0
      (beBytes 4 M)) 26 (beBytes 8 cm)).length = obuf.length := by
  rw [writeBytes_length (by rw [beBytes_length, hw_len2 hob]; omega),
    hw_len2 hob]

theorem hw_len4 {buf obuf : List Nat} {M cm T : Nat} (hob : 42 ≤ obuf.length) :
    (writeBytes (writeBytes (writeBytes (writeBytes obuf 0 (List.take 38 buf))
      0 (beBytes 4 M)) 26 (beBytes 8 cm)) 24 (beBytes 2 T)).length =
      obuf.length := by
  rw [writeBytes_length (by rw [beBytes_length, hw_len3 hob]; omega),
    hw_len3 hob]

theorem hw_len5 {buf obuf : List Nat} {M cm T c2 : Nat}
    (hob : 42 ≤ obuf.length) :
    (writeBytes (writeBytes (writeBytes (writeBytes (writeBytes obuf 0
      (List.take 38 buf)) 0 (beBytes 4 M)) 26 (beBytes 8 cm)) 24
      (beBytes 2 T)) 40 (beBytes 2 c2)).length = obuf.length := by
  rw [writeBytes_length (by rw [beBytes_length, hw_len4 hob]; omega),
    hw_len4 hob]

theorem header_write_length {buf obuf : List Nat} {cm w : Nat} {e : Bool}
    (hob : 42 ≤ obuf.length) :
    (fil_page_header_write buf obuf cm w e).length = obuf.length := by
  simp only [fil_page_header_write, mach_write_to_2, mach_write_to_4,
    mach_write_to_8, FIL_PAGE_DATA, FIL_PAGE_SPACE_OR_CHKSUM, FIL_PAGE_TYPE,
    FIL_PAGE_FILE_FLUSH_LSN_OR_KEY_VERSION, FIL_PAGE_COMPRESSED_SIZE,
    FIL_PAGE_PAGE_COMPRESSED, FIL_PAGE_PAGE_COMPRESSED_ENCRYPTED,
    BUF_NO_CHECKSUM_MAGIC]
  norm_num
  cases e
  case false =>
    simp only [Bool.false_eq_true, if_false]
    rw [writeBytes_length (by rw [beBytes_length, hw_len4 hob]; omega),
      hw_len4 hob]
  case true =>
    simp only [reduceIte]
    rw [writeBytes_length (by rw [beBytes_length, hw_len5 hob]; omega),
      hw_len5 hob]

theorem header_write_read_size {buf obuf : List Nat} {cm w : Nat} {e : Bool}
    (hob : 42 ≤ obuf.length) :
    mach_read_from_2 (fil_page_header_write buf obuf cm w e) FIL_PAGE_DATA =
      w % 2 ^ 16 := by
  simp only [fil_page_header_write, mach_write_to_2, mach_write_to_4,
    mach_write_to_8, mach_read_from_2, FIL_PAGE_DATA, FIL_PAGE_SPACE_OR_CHKSUM,
    FIL_PAGE_TYPE, FIL_PAGE_FILE_FLUSH_LSN_OR_KEY_VERSION,
    FIL_PAGE_COMPRESSED_SIZE, FIL_PAGE_PAGE_COMPRESSED,
    FIL_PAGE_PAGE_COMPRESSED_ENCRYPTED, BUF_NO_CHECKSUM_MAGIC]
  norm_num
  cases e
  case false =>
    simp only [Bool.false_eq_true, if_false]
    rw [readBE_writeBytes_beBytes (by rw [hw_len4 hob]; omega)]
    norm_num
  case true =>
    simp only [reduceIte]
    rw [readBE_writeBytes_beBytes (by rw [hw_len5 hob]; omega)]
    norm_num

theorem header_write_read_type {buf obuf : List Nat} {cm w : Nat} {e : Bool}
    (hob : 42 ≤ obuf.length) :
    mach_read_from_2 (fil_page_header_write buf obuf cm w e) FIL_PAGE_TYPE =
      if e then FIL_PAGE_PAGE_COMPRESSED_ENCRYPTED
      else FIL_PAGE_PAGE_COMPRESSED := by
  simp only [fil_page_header_write, mach_write_to_2, mach_write_to_4,
    mach_write_to_8, mach_read_from_2, FIL_PAGE_DATA, FIL_PAGE_SPACE_OR_CHKSUM,
    FIL_PAGE_TYPE, FIL_PAGE_FILE_FLUSH_LSN_OR_KEY_VERSION,
    FIL_PAGE_COMPRESSED_SIZE, FIL_PAGE_PAGE_COMPRESSED,
    FIL_PAGE_PAGE_COMPRESSED_ENCRYPTED, BUF_NO_CHECKSUM_MAGIC]
  norm_num
  cases e
  case false =>
    simp only [Bool.false_eq_true, if_false]
    rw [readBE_write_above (by omega) (by rw [hw_len4 hob]; omega)]
    rw [readBE_writeBytes_beBytes (by rw [hw_len3 hob]; omega)]
    norm_num
  case true =>
    simp only [reduceIte]
    rw [readBE_write_above (by omega) (by rw [hw_len5 hob]; omega)]
    rw [readBE_write_above (by omega) (by rw [hw_len4 hob]; omega)]
    rw [readBE_writeBytes_beBytes (by rw [hw_len3 hob]; omega)]
    norm_num

theorem header_write_read_chk {buf obuf : List Nat} {cm w : Nat} {e : Bool}
    (hob : 42 ≤ obuf.length) :
    mach_read_from_4 (fil_page_header_write buf obuf cm w e)
      FIL_PAGE_SPACE_OR_CHKSUM = BUF_NO_CHECKSUM_MAGIC := by
  simp only [fil_page_header_write, mach_write_to_2, mach_write_to_4,
    mach_write_to_8, mach_read_from_4, FIL_PAGE_DATA, FIL_PAGE_SPACE_OR_CHKSUM,
    FIL_PAGE_TYPE, FIL_PAGE_FILE_FLUSH_LSN_OR_KEY_VERSION,
    FIL_PAGE_COMPRESSED_SIZE, FIL_PAGE_PAGE_COMPRESSED,
    FIL_PAGE_PAGE_COMPRESSED_ENCRYPTED, BUF_NO_CHECKSUM_MAGIC]
  norm_num
  cases e
  case false =>
    simp only [Bool.false_eq_true, if_false]
    rw [readBE_write_above (by omega) (by rw [hw_len4 hob]; omega)]
    rw [readBE_write_above (by omega) (by rw [hw_len3 hob]; omega)]
    rw [readBE_write_above (by omega) (by rw [hw_len2 hob]; omega)]
    rw [readBE_writeBytes_beBytes (by rw [hw_len1 hob]; omega)]
    norm_num
  case true =>
    simp only [reduceIte]
    rw [readBE_write_above (by omega) (by rw [hw_len5 hob]; omega)]
    rw [readBE_write_above (by omega) (by rw [hw_len4 hob]; omega)]
    rw [readBE_write_above (by omega) (by rw [hw_len3 hob]; omega)]
    rw [readBE_write_above (by omega) (by rw [hw_len2 hob]; omega)]
    rw [readBE_writeBytes_beBytes (by rw [hw_len1 hob]; omega)]
    norm_num

theorem header_write_read_alg8 {buf obuf : List Nat} {cm w : Nat} {e : Bool}
    (hob : 42 ≤ obuf.length) :
    mach_read_from_8 (fil_page_header_write buf obuf cm w e)
      FIL_PAGE_FILE_FLUSH_LSN_OR_KEY_VERSION = cm % 2 ^ 64 := by
  simp only [fil_page_header_write, mach_write_to_2, mach_write_to_4,
    mach_write_to_8, mach_read_from_8, FIL_PAGE_DATA, FIL_PAGE_SPACE_OR_CHKSUM,
    FIL_PAGE_TYPE, FIL_PAGE_FILE_FLUSH_LSN_OR_KEY_VERSION,
    FIL_PAGE_COMPRESSED_SIZE, FIL_PAGE_PAGE_COMPRESSED,
    FIL_PAGE_PAGE_COMPRESSED_ENCRYPTED, BUF_NO_CHECKSUM_MAGIC]
  norm_num
  cases e
  case false =>
    simp only [Bool.false_eq_true, if_false]
    rw [readBE_write_above (by omega) (by rw [hw_len4 hob]; omega)]
    rw [readBE_write_below (by simp [beBytes_length])
      (by rw [hw_len3 hob]; omega)]
    rw [readBE_writeBytes_beBytes (by rw [hw_len2 hob]; omega)]
    norm_num
  case true =>
    simp only [reduceIte]
    rw [readBE_write_above (by omega) (by rw [hw_len5 hob]; omega)]
    rw [readBE_write_above (by omega) (by rw [hw_len4 hob]; omega)]
    rw [readBE_write_below (by simp [beBytes_length])
      (by rw [hw_len3 hob]; omega)]
    rw [readBE_writeBytes_beBytes (by rw [hw_len2 hob]; omega)]
    norm_num

theorem header_write_read_alg2 {buf obuf : List Nat} {cm w : Nat}
    (hob : 42 ≤ obuf.length) :
    mach_read_from_2 (fil_page_header_write buf obuf cm w true)
      (FIL_PAGE_DATA + FIL_PAGE_COMPRESSED_SIZE) = cm % 2 ^ 16 := by
  simp only [fil_page_header_write, mach_write_to_2, mach_write_to_4,
    mach_write_to_8, mach_read_from_2, FIL_PAGE_DATA, FIL_PAGE_SPACE_OR_CHKSUM,
    FIL_PAGE_TYPE, FIL_PAGE_FILE_FLUSH_LSN_OR_KEY_VERSION,
    FIL_PAGE_COMPRESSED_SIZE, FIL_PAGE_PAGE_COMPRESSED,
    FIL_PAGE_PAGE_COMPRESSED_ENCRYPTED, BUF_NO_CHECKSUM_MAGIC, reduceIte]
  norm_num
  rw [readBE_write_below (by simp [beBytes_length])
    (by rw [hw_len5 hob]; omega)]
  rw [readBE_writeBytes_beBytes (by rw [hw_len4 hob]; omega)]
  norm_num

theorem blockSizeOf_pos (block_size : Nat) : 0 < blockSizeOf block_size := by
  unfold blockSizeOf
  split <;> omega

theorem alignedSize_ge {v a : Nat} (ha : 0 < a) : v ≤ alignedSize v a := by
  unfold alignedSize
  split
  · exact le_refl v
  · exact alignUp_ge ha

theorem alignedSize_le {v a m : Nat} (ha : 0 < a) (hd : a ∣ m) (hv : v ≤ m) :
    alignedSize v a ≤ m := by
  unfold alignedSize
  split
  · exact hv
  · exact alignUp_le_of_dvd ha hd hv

theorem alignedSize_eq_alignUp {v a : Nat} (ha : 0 < a) :
    alignedSize v a = alignUp v a := by
  unfold alignedSize
  split
  case isTrue h => exact (alignUp_of_mod_eq_zero ha h).symm
  case isFalse h => rfl

theorem header_write_getD_hi {buf obuf : List Nat} {cm w : Nat} {e : Bool}
    {i d : Nat} (hob : 42 ≤ obuf.length) (hi : pageHeaderLen e ≤ i) :
    (fil_page_header_write buf obuf cm w e).getD i d = obuf.getD i d := by
  simp only [fil_page_header_write, mach_write_to_2, mach_write_to_4,
    mach_write_to_8, FIL_PAGE_DATA, FIL_PAGE_SPACE_OR_CHKSUM, FIL_PAGE_TYPE,
    FIL_PAGE_FILE_FLUSH_LSN_OR_KEY_VERSION, FIL_PAGE_COMPRESSED_SIZE,
    FIL_PAGE_PAGE_COMPRESSED, FIL_PAGE_PAGE_COMPRESSED_ENCRYPTED,
    BUF_NO_CHECKSUM_MAGIC, Nat.reduceAdd]
  have htk : (List.take 38 buf).length ≤ 38 := by simp [List.length_take]
  cases e
  case false =>
    simp only [pageHeaderLen, FIL_PAGE_DATA, FIL_PAGE_COMPRESSED_SIZE,
      FIL_PAGE_COMPRESSION_METHOD_SIZE, Bool.false_eq_true, if_false] at hi
    simp only [Bool.false_eq_true, if_false]
    rw [writeBytes_getD_hi (by simp [beBytes_length]; omega)
      (by rw [hw_len4 hob]; omega)]
    rw [writeBytes_getD_hi (by simp [beBytes_length]; omega)
      (by rw [hw_len3 hob]; omega)]
    rw [writeBytes_getD_hi (by simp [beBytes_length]; omega)
      (by rw [hw_len2 hob]; omega)]
    rw [writeBytes_getD_hi (by simp [beBytes_length]; omega)
      (by rw [hw_len1 hob]; omega)]
    rw [writeBytes_getD_hi (by omega) (by omega)]
  case true =>
    simp only [pageHeaderLen, FIL_PAGE_DATA, FIL_PAGE_COMPRESSED_SIZE,
      FIL_PAGE_COMPRESSION_METHOD_SIZE, reduceIte] at hi
    simp only [reduceIte]
    rw [writeBytes_getD_hi (by simp [beBytes_length]; omega)
      (by rw [hw_len5 hob]; omega)]
    rw [writeBytes_getD_hi (by simp [beBytes_length]; omega)
      (by rw [hw_len4 hob]; omega)]
    rw [writeBytes_getD_hi (by simp [beBytes_length]; omega)
      (by rw [hw_len3 hob]; omega)]
    rw [writeBytes_getD_hi (by simp [beBytes_length]; omega)
      (by rw [hw_len2 hob]; omega)]
    rw [writeBytes_getD_hi (by simp [beBytes_length]; omega)
      (by rw [hw_len1 hob]; omega)]
    rw [writeBytes_getD_hi (by omega) (by omega)]

theorem readBE_ite_pad {c : Prop} [Decidable c] {b : List Nat} {off2 : Nat}
    {v : List Nat} {off n : Nat} (h : off + n ≤ off2) (hb : off2 ≤ b.length) :
    readBE (if c then b else writeBytes b off2 v) off n = readBE b off n := by
  split
  · rfl
  · exact readBE_write_above h hb

theorem getD_ite_pad {c : Prop} [Decidable c] {b : List Nat} {off2 : Nat}
    {v : List Nat} {i d : Nat} (h : i < off2) (hb : off2 ≤ b.length) :
    (if c then b else writeBytes b off2 v).getD i d = b.getD i d := by
  split
  · rfl
  · exact writeBytes_getD_lo h hb

theorem length_ite_pad {c : Prop} [Decidable c] {b : List Nat} {off2 L : Nat}
    {v : List Nat} (hb : b.length = L) (h : off2 + v.length ≤ L) :
    (if c then b else writeBytes b off2 v).length = L := by
  split
  · exact hb
  · exact writeBytes_length_eq hb h

theorem take_writeBytes_zero {z v : List Nat} :
    (writeBytes z 0 v).take v.length = v := by
  simp [writeBytes, List.take_left]

theorem writeBytes_zero_full {b v : List Nat} (h : v.length = b.length) :
    writeBytes b 0 v = v := by
  simp [writeBytes, h, List.drop_length]

theorem fil_compress_page_ok {env : PCEnv} {space : Option Bool}
    {buf obuf : List Nat} {len level block_size : Nat} {e : Bool} {c : Codec}
    {pl : List Nat}
    (ht : ¬ ineligibleType (fil_page_get_type buf))
    (hcm : env.comp_method ≠ PAGE_UNCOMPRESSED)
    (halg : env.algos env.comp_method = some c)
    (hcc : codecCompress c buf (resolveLevel env level)
      (env.psize - pageHeaderLen e) = some pl) :
    fil_compress_page env space buf obuf len level block_size e =
      compressOkResult env space buf obuf len block_size e pl := by
  unfold fil_compress_page
  rw [if_neg ht, if_neg hcm, halg]
  dsimp only
  rw [hcc]

theorem fil_compress_page_err {env : PCEnv} {space : Option Bool}
    {buf obuf : List Nat} {len level block_size : Nat} {e : Bool} {c : Codec}
    (ht : ¬ ineligibleType (fil_page_get_type buf))
    (hcm : env.comp_method ≠ PAGE_UNCOMPRESSED)
    (halg : env.algos env.comp_method = some c)
    (hcc : codecCompress c buf (resolveLevel env level)
      (env.psize - pageHeaderLen e) = none) :
    fil_compress_page env space buf obuf len level block_size e =
      errExitResult space buf len true := by
  unfold fil_compress_page
  rw [if_neg ht, if_neg hcm, halg]
  dsimp only
  rw [hcc]

theorem compressOk_reads (env : PCEnv) (space : Option Bool)
    (buf obuf : List Nat) (len block_size : Nat) (e : Bool) (pl : List Nat)
    (hob : obuf.length = env.psize) (h42 : 42 ≤ env.psize)
    (hpl0 : 1 ≤ pl.length) (hpl : pl.length + pageHeaderLen e ≤ env.psize)
    (hlen : len = env.psize)
    (hdvd : blockSizeOf block_size ∣ env.psize) :
    (compressOkResult env space buf obuf len block_size e pl).page.length =
      env.psize ∧
    mach_read_from_2 (compressOkResult env space buf obuf len block_size e
      pl).page FIL_PAGE_TYPE =
      (if e then FIL_PAGE_PAGE_COMPRESSED_ENCRYPTED
       else FIL_PAGE_PAGE_COMPRESSED) ∧
    mach_read_from_4 (compressOkResult env space buf obuf len block_size e
      pl).page FIL_PAGE_SPACE_OR_CHKSUM = BUF_NO_CHECKSUM_MAGIC ∧
    mach_read_from_8 (compressOkResult env space buf obuf len block_size e
      pl).page FIL_PAGE_FILE_FLUSH_LSN_OR_KEY_VERSION =
      env.comp_method % 2 ^ 64 ∧
    (e = true → mach_read_from_2 (compressOkResult env space buf obuf len
      block_size e pl).page (FIL_PAGE_DATA + FIL_PAGE_COMPRESSED_SIZE) =
      env.comp_method % 2 ^ 16) ∧
    mach_read_from_2 (compressOkResult env space buf obuf len block_size e
      pl).page FIL_PAGE_DATA = pl.length % 2 ^ 16 ∧
    ((compressOkResult env space buf obuf len block_size e pl).page.drop
      (pageHeaderLen e)).take pl.length = pl := by
  have hhl1 : 40 ≤ pageHeaderLen e := by
    cases e <;> simp [pageHeaderLen, FIL_PAGE_DATA, FIL_PAGE_COMPRESSED_SIZE,
      FIL_PAGE_COMPRESSION_METHOD_SIZE]
  have hhl2 : pageHeaderLen e ≤ 42 := by
    cases e <;> simp [pageHeaderLen, FIL_PAGE_DATA, FIL_PAGE_COMPRESSED_SIZE,
      FIL_PAGE_COMPRESSION_METHOD_SIZE]
  have hbs := blockSizeOf_pos block_size
  unfold compressOkResult
  dsimp only
  set o2 := fil_page_header_write buf (writeBytes obuf (pageHeaderLen e) pl)
    env.comp_method pl.length e with ho2
  set ws1 := alignedSize (pl.length + pageHeaderLen e)
    (blockSizeOf block_size) with hws1
  set o3 := if (pl.length + pageHeaderLen e) % blockSizeOf block_size = 0
    then o2
    else writeBytes o2 (pl.length + pageHeaderLen e)
      (List.replicate (ws1 - (pl.length + pageHeaderLen e)) 0) with ho3
  set o4 := if env.srv_use_trim = true then o3
    else writeBytes o3 ws1 (List.replicate (len - ws1) 0) with ho4
  have hout1 : (writeBytes obuf (pageHeaderLen e) pl).length = env.psize :=
    writeBytes_length_eq hob (by omega)
  have h42o : 42 ≤ (writeBytes obuf (pageHeaderLen e) pl).length := by
    rw [hout1]; exact h42
  have l2 : o2.length = env.psize := by
    rw [ho2, header_write_length h42o, hout1]
  have hws1ge : pl.length + pageHeaderLen e ≤ ws1 := by
    rw [hws1]; exact alignedSize_ge hbs
  have hws1le : ws1 ≤ env.psize := by
    rw [hws1]; exact alignedSize_le hbs hdvd hpl
  have l3 : o3.length = env.psize := by
    rw [ho3]
    exact length_ite_pad l2 (by simp [List.length_replicate]; omega)
  have l4 : o4.length = env.psize := by
    rw [ho4]
    exact length_ite_pad l3 (by simp [List.length_replicate]; omega)
  refine ⟨l4, ?_, ?_, ?_, ?_, ?_, ?_⟩
  · rw [ho4, mach_read_from_2,
      readBE_ite_pad (by simp only [FIL_PAGE_TYPE]; omega) (by rw [l3]; omega)]
    rw [ho3, readBE_ite_pad (by simp only [FIL_PAGE_TYPE]; omega)
      (by rw [l2]; omega)]
    rw [ho2]
    exact header_write_read_type h42o
  · rw [ho4, mach_read_from_4,
      readBE_ite_pad (by simp only [FIL_PAGE_SPACE_OR_CHKSUM]; omega)
      (by rw [l3]; omega)]
    rw [ho3, readBE_ite_pad (by simp only [FIL_PAGE_SPACE_OR_CHKSUM]; omega)
      (by rw [l2]; omega)]
    rw [ho2]
    exact header_write_read_chk h42o
  · rw [ho4, mach_read_from_8,
      readBE_ite_pad (by simp only [FIL_PAGE_FILE_FLUSH_LSN_OR_KEY_VERSION]; omega)
      (by rw [l3]; omega)]
    rw [ho3, readBE_ite_pad
      (by simp only [FIL_PAGE_FILE_FLUSH_LSN_OR_KEY_VERSION]; omega)
      (by rw [l2]; omega)]
    rw [ho2]
    exact header_write_read_alg8 h42o
  · intro he
    subst he
    have hhl42 : pageHeaderLen true = 42 := by
      simp [pageHeaderLen, FIL_PAGE_DATA, FIL_PAGE_COMPRESSED_SIZE,
        FIL_PAGE_COMPRESSION_METHOD_SIZE]
    rw [ho4, mach_read_from_2,
      readBE_ite_pad (by simp only [FIL_PAGE_DATA, FIL_PAGE_COMPRESSED_SIZE]; omega)
      (by rw [l3]; omega)]
    rw [ho3, readBE_ite_pad
      (by simp only [FIL_PAGE_DATA, FIL_PAGE_COMPRESSED_SIZE]; omega)
      (by rw [l2]; omega)]
    rw [ho2]
    exact header_write_read_alg2 h42o
  · rw [ho4, mach_read_from_2,
      readBE_ite_pad (by simp only [FIL_PAGE_DATA]; omega) (by rw [l3]; omega)]
    rw [ho3, readBE_ite_pad (by simp only [FIL_PAGE_DATA]; omega)
      (by rw [l2]; omega)]
    rw [ho2]
    exact header_write_read_size h42o
  · apply segment_eq_of_getD (by rw [l4]; omega)
    intro i hi
    rw [ho4, getD_ite_pad (by omega) (by rw [l3]; omega)]
    rw [ho3, getD_ite_pad (by omega) (by rw [l2]; omega)]
    rw [ho2, header_write_getD_hi h42o (by omega)]
    rw [writeBytes_getD_mid (by omega) (by omega) (by rw [hob]; omega)]
    congr 1
    omega

theorem compressOk_out_len (env : PCEnv) (space : Option Bool)
    (buf obuf : List Nat) (len block_size : Nat) (e : Bool) (pl : List Nat) :
    (compressOkResult env space buf obuf len block_size e pl).out_len =
      if env.srv_use_trim then
        alignedSize (pl.length + pageHeaderLen e) (blockSizeOf block_size)
      else len := rfl

theorem compressOk_gap_zero (env : PCEnv) (space : Option Bool)
    (buf obuf : List Nat) (len block_size : Nat) (e : Bool) (pl : List Nat)
    (hob : obuf.length = env.psize) (h42 : 42 ≤ env.psize)
    (hpl : pl.length + pageHeaderLen e ≤ env.psize)
    (htrim : env.srv_use_trim = true) (k : Nat)
    (hk1 : pl.length + pageHeaderLen e ≤ k)
    (hk2 : k < alignedSize (pl.length + pageHeaderLen e)
      (blockSizeOf block_size)) :
    (compressOkResult env space buf obuf len block_size e pl).page.getD k 0 =
      0 := by
  have hbs := blockSizeOf_pos block_size
  have hout1 : (writeBytes obuf (pageHeaderLen e) pl).length = env.psize :=
    writeBytes_length_eq hob (by omega)
  have h42o : 42 ≤ (writeBytes obuf (pageHeaderLen e) pl).length := by
    rw [hout1]; exact h42
  have l2 : (fil_page_header_write buf (writeBytes obuf (pageHeaderLen e) pl)
      env.comp_method pl.length e).length = env.psize := by
    rw [header_write_length h42o, hout1]
  have hge : pl.length + pageHeaderLen e ≤
      alignedSize (pl.length + pageHeaderLen e) (blockSizeOf block_size) :=
    alignedSize_ge hbs
  unfold compressOkResult
  dsimp only
  rw [htrim]
  simp only [reduceIte]
  split
  case isTrue h =>
    have heq : alignedSize (pl.length + pageHeaderLen e)
        (blockSizeOf block_size) = pl.length + pageHeaderLen e := by
      unfold alignedSize
      rw [if_pos h]
    omega
  case isFalse h =>
    rw [writeBytes_getD_mid (by omega)
      (by simp [List.length_replicate]; omega) (by rw [l2]; omega)]
    rw [getD_replicate]
    split <;> rfl

/-- C5: whenever the codec invocation fails, with an error status or a
payload exceeding page_size - header_len, fil_compress_page returns the
original uncompressed page with *out_len equal to the input page length, so
the failure does not propagate past this layer. -/
theorem C5_compress_failure_fallback (env : PCEnv) (space : Option Bool)
    (buf obuf : List Nat) (len level block_size : Nat) (e : Bool) (c : Codec)
    (ht : ¬ ineligibleType (fil_page_get_type buf))
    (hcm : env.comp_method ≠ PAGE_UNCOMPRESSED)
    (halg : env.algos env.comp_method = some c)
    (hcc : codecCompress c buf (resolveLevel env level)
      (env.psize - pageHeaderLen e) = none) :
    (fil_compress_page env space buf obuf len level block_size e).page = buf ∧
    (fil_compress_page env space buf obuf len level block_size e).out_len =
      len := by
  rw [fil_compress_page_err ht hcm halg hcc]
  exact ⟨rfl, rfl⟩

/-- C6: for a page whose type tag is non-eligible (0, FSP_HDR, XDES, or
already page-compressed), and likewise when the resolved algorithm is none
(PAGE_UNCOMPRESSED), fil_compress_page returns the input page unchanged with
*out_len equal to the input length and never invokes any codec compress
primitive. -/
theorem C6_ineligible_or_none_passthrough (env : PCEnv) (space : Option Bool)
    (buf obuf : List Nat) (len level block_size : Nat) (e : Bool)
    (h : ineligibleType (fil_page_get_type buf) ∨
      env.comp_method = PAGE_UNCOMPRESSED) :
    (fil_compress_page env space buf obuf len level block_size e).page = buf ∧
    (fil_compress_page env space buf obuf len level block_size e).out_len =
      len ∧
    (fil_compress_page env space buf obuf len level block_size
      e).codec_called = false := by
  by_cases hi : ineligibleType (fil_page_get_type buf)
  · unfold fil_compress_page
    rw [if_pos hi]
    exact ⟨rfl, rfl, rfl⟩
  · have hcm : env.comp_method = PAGE_UNCOMPRESSED := h.resolve_left hi
    unfold fil_compress_page
    rw [if_neg hi, if_pos hcm]
    exact ⟨rfl, rfl, rfl⟩

/-- C10: an ineligible page type exits through the same err_exit path as a
genuine compression error: pages_page_compression_error is incremented and,
when the tablespace has not warned yet, the compression-failure warning is
emitted. -/
theorem C10_ineligible_counted_as_error (env : PCEnv) (space : Option Bool)
    (buf obuf : List Nat) (len level block_size : Nat) (e : Bool)
    (h : ineligibleType (fil_page_get_type buf)) :
    (fil_compress_page env space buf obuf len level block_size e).error_inc =
      true ∧
    (space = some false →
      (fil_compress_page env space buf obuf len level block_size e).warned =
        true) := by
  unfold fil_compress_page
  rw [if_pos h]
  refine ⟨rfl, ?_⟩
  rintro rfl
  rfl

/-- C8: a buffer whose page-type marker matches neither compressed variant is
returned unchanged by fil_decompress_page, with no counter modified and the
write_size out-pointer untouched; this is the notCompressed pass-through, not
an error. -/
theorem C8_unknown_marker_passthrough (env : PCEnv)
    (page_buf : Option (List Nat)) (buf : List Nat) (len : Nat)
    (ws : Option Nat) (re : Bool)
    (h1 : mach_read_from_2 buf FIL_PAGE_TYPE ≠ FIL_PAGE_PAGE_COMPRESSED)
    (h2 : mach_read_from_2 buf FIL_PAGE_TYPE ≠
      FIL_PAGE_PAGE_COMPRESSED_ENCRYPTED) :
    fil_decompress_page env page_buf buf len ws re =
      { buf := buf, outcome := .notCompressed, write_size := ws,
        decompressed_inc := false } := by
  unfold fil_decompress_page fil_page_header_read
  dsimp only
  rw [if_neg h2, if_neg h1]

theorem compress_flag_true_no_warn (env : PCEnv) (b o : List Nat)
    (l lv bs : Nat) (e : Bool) :
    (fil_compress_page env (some true) b o l lv bs e).warned = false ∧
    (fil_compress_page env (some true) b o l lv bs e).space' = some true := by
  unfold fil_compress_page
  split
  · exact ⟨rfl, rfl⟩
  · split
    · exact ⟨rfl, rfl⟩
    · split
      · exact ⟨rfl, rfl⟩
      · split
        · exact ⟨rfl, rfl⟩
        · exact ⟨rfl, rfl⟩

theorem compress_error_sets_flag (env : PCEnv) (p : Bool) (b o : List Nat)
    (l lv bs : Nat) (e : Bool) :
    (fil_compress_page env (some p) b o l lv bs e).error_inc = true →
    (fil_compress_page env (some p) b o l lv bs e).space' = some true := by
  unfold fil_compress_page
  split
  · intro _; rfl
  · split
    · intro h; simp [passthroughResult] at h
    · split
      · intro h; simp [utErrorResult] at h
      · split
        · intro _; rfl
        · intro h; simp [compressOkResult] at h

theorem compressTrace_true_no_warn (env : PCEnv) (calls : List CompCall) :
    ∀ (j : Nat) (d : CompResult), j < (compressTrace env true calls).length →
    ((compressTrace env true calls).getD j d).warned = false := by
  induction calls with
  | nil => intro j d h; simp [compressTrace] at h
  | cons c cs ih =>
      intro j d h
      simp only [compressTrace, List.length_cons] at h ⊢
      rw [(compress_flag_true_no_warn env c.buf c.obuf c.len c.level
        c.block_size c.encrypted).2] at h ⊢
      simp only [Option.getD_some] at h ⊢
      cases j with
      | zero =>
          simp only [List.getD_cons_zero]
          exact (compress_flag_true_no_warn env c.buf c.obuf c.len c.level
            c.block_size c.encrypted).1
      | succ j2 =>
          simp only [List.getD_cons_succ]
          exact ih j2 d (by omega)

/-- C9: per tablespace, the compression-failure warning is emitted at most
once: in any sequence of fil_compress_page calls threading one tablespace's
printed_compression_failure flag, once some call has failed (incrementing the
error counter and setting the flag), no later call emits the warning. -/
theorem C9_warn_at_most_once (env : PCEnv) (calls : List CompCall) :
    ∀ (printed : Bool) (i j : Nat) (d : CompResult), i < j →
    j < (compressTrace env printed calls).length →
    ((compressTrace env printed calls).getD i d).error_inc = true →
    ((compressTrace env printed calls).getD j d).warned = false := by
  induction calls with
  | nil => intro printed i j d hij hj hfail; simp [compressTrace] at hj
  | cons c cs ih =>
      intro printed i j d hij hj hfail
      simp only [compressTrace, List.length_cons] at hj hfail ⊢
      obtain ⟨j2, rfl⟩ : ∃ j2, j = j2 + 1 := ⟨j - 1, by omega⟩
      simp only [List.getD_cons_succ]
      cases i with
      | zero =>
          simp only [List.getD_cons_zero] at hfail
          have hs := compress_error_sets_flag env printed c.buf c.obuf c.len
            c.level c.block_size c.encrypted hfail
          rw [hs] at hj ⊢
          simp only [Option.getD_some] at hj ⊢
          exact compressTrace_true_no_warn env cs j2 d (by omega)
      | succ i2 =>
          simp only [List.getD_cons_succ] at hfail
          exact ih _ i2 j2 d (by omega) (by omega) hfail

theorem header_read_of_reads {page : List Nat} {e : Bool} {szv alg : Nat}
    (hty : mach_read_from_2 page FIL_PAGE_TYPE =
      (if e then FIL_PAGE_PAGE_COMPRESSED_ENCRYPTED
       else FIL_PAGE_PAGE_COMPRESSED))
    (hsz : mach_read_from_2 page FIL_PAGE_DATA = szv)
    (halg8 : mach_read_from_8 page FIL_PAGE_FILE_FLUSH_LSN_OR_KEY_VERSION =
      alg)
    (halg2 : e = true → mach_read_from_2 page
      (FIL_PAGE_DATA + FIL_PAGE_COMPRESSED_SIZE) = alg) :
    fil_page_header_read page = some (pageHeaderLen e, szv, alg) := by
  cases e
  case false =>
    simp only [Bool.false_eq_true, if_false] at hty
    unfold fil_page_header_read
    dsimp only
    rw [hty]
    rw [if_neg (by simp [FIL_PAGE_PAGE_COMPRESSED,
      FIL_PAGE_PAGE_COMPRESSED_ENCRYPTED]), if_pos rfl, hsz, halg8]
    simp [pageHeaderLen, FIL_PAGE_DATA, FIL_PAGE_COMPRESSED_SIZE,
      FIL_PAGE_COMPRESSION_METHOD_SIZE]
  case true =>
    simp only [reduceIte] at hty
    unfold fil_page_header_read
    dsimp only
    rw [hty, if_pos rfl, hsz, halg2 rfl]
    simp [pageHeaderLen, FIL_PAGE_DATA, FIL_PAGE_COMPRESSED_SIZE,
      FIL_PAGE_COMPRESSION_METHOD_SIZE]

theorem decompress_pass_of_type {env : PCEnv} {page_buf : Option (List Nat)}
    {buf : List Nat} {len : Nat} {ws : Option Nat} {re : Bool}
    (h1 : mach_read_from_2 buf FIL_PAGE_TYPE ≠ FIL_PAGE_PAGE_COMPRESSED)
    (h2 : mach_read_from_2 buf FIL_PAGE_TYPE ≠
      FIL_PAGE_PAGE_COMPRESSED_ENCRYPTED) :
    fil_decompress_page env page_buf buf len ws re =
      { buf := buf, outcome := .notCompressed, write_size := ws,
        decompressed_inc := false } := by
  unfold fil_decompress_page fil_page_header_read
  dsimp only
  rw [if_neg h2, if_neg h1]

/-- C4: reading back a header that was just written reproduces exactly the
same (header_len, payload_len, algorithm_id) triple, for both the plain and
the encrypted variant and for every valid tuple, including the boundary
payload lengths 1 and page_size - header_len. -/
theorem C4_header_roundtrip (buf obuf : List Nat) (alg w psize : Nat)
    (e : Bool) (hob : obuf.length = psize) (h42 : 42 ≤ psize)
    (hps : psize ≤ 65536) (halg : alg < 65536) (hw1 : 1 ≤ w)
    (hw2 : w ≤ psize - pageHeaderLen e) :
    fil_page_header_read (fil_page_header_write buf obuf alg w e) =
      some (pageHeaderLen e, w, alg) := by
  have h42o : 42 ≤ obuf.length := by omega
  have hhl1 : 40 ≤ pageHeaderLen e := by
    cases e <;> simp [pageHeaderLen, FIL_PAGE_DATA, FIL_PAGE_COMPRESSED_SIZE,
      FIL_PAGE_COMPRESSION_METHOD_SIZE]
  have hp16 : (2 : Nat) ^ 16 = 65536 := by norm_num
  have hp64 : (2 : Nat) ^ 64 = 18446744073709551616 := by norm_num
  refine header_read_of_reads (header_write_read_type h42o) ?_ ?_ ?_
  · rw [header_write_read_size h42o, hp16]
    exact Nat.mod_eq_of_lt (by omega)
  · rw [header_write_read_alg8 h42o, hp64]
    exact Nat.mod_eq_of_lt (by omega)
  · intro he
    subst he
    rw [header_write_read_alg2 h42o, hp16]
    exact Nat.mod_eq_of_lt (by omega)

/-- C3 (amended): fil_compress_page writes the 8-byte algorithm-id field at
FIL_PAGE_FILE_FLUSH_LSN_OR_KEY_VERSION in BOTH header variants, not only in
the non-encrypted one; when the encrypted variant is used the algorithm id
is additionally stored in the redundant 2-byte sub-field immediately after
the payload length, and it is that sub-field the decompressor's header
parsing uses to identify the algorithm in the encrypted variant (the 8-byte
field otherwise). -/
theorem C3_algorithm_id_fields (env : PCEnv) (space : Option Bool)
    (buf obuf : List Nat) (len level block_size : Nat) (e : Bool) (c : Codec)
    (pl : List Nat)
    (ht : ¬ ineligibleType (fil_page_get_type buf))
    (hcm0 : env.comp_method ≠ PAGE_UNCOMPRESSED)
    (halg : env.algos env.comp_method = some c)
    (hcc : codecCompress c buf (resolveLevel env level)
      (env.psize - pageHeaderLen e) = some pl)
    (hob : obuf.length = env.psize) (h42 : 42 ≤ env.psize)
    (hps : env.psize ≤ 65536) (hlen : len = env.psize)
    (hcm : env.comp_method < 65536)
    (hdvd : blockSizeOf block_size ∣ env.psize) :
    mach_read_from_8 (fil_compress_page env space buf obuf len level
      block_size e).page FIL_PAGE_FILE_FLUSH_LSN_OR_KEY_VERSION =
      env.comp_method ∧
    (e = true → mach_read_from_2 (fil_compress_page env space buf obuf len
      level block_size e).page (FIL_PAGE_DATA + FIL_PAGE_COMPRESSED_SIZE) =
      env.comp_method) ∧
    fil_page_header_read (fil_compress_page env space buf obuf len level
      block_size e).page = some (pageHeaderLen e, pl.length,
      env.comp_method) := by
  obtain ⟨hcomp, hpl0, hplcap⟩ := codecCompress_some hcc
  have hhl1 : 40 ≤ pageHeaderLen e := by
    cases e <;> simp [pageHeaderLen, FIL_PAGE_DATA, FIL_PAGE_COMPRESSED_SIZE,
      FIL_PAGE_COMPRESSION_METHOD_SIZE]
  have hhl2 : pageHeaderLen e ≤ 42 := by
    cases e <;> simp [pageHeaderLen, FIL_PAGE_DATA, FIL_PAGE_COMPRESSED_SIZE,
      FIL_PAGE_COMPRESSION_METHOD_SIZE]
  have hpl : pl.length + pageHeaderLen e ≤ env.psize := by omega
  have hp16 : (2 : Nat) ^ 16 = 65536 := by norm_num
  have hp64 : (2 : Nat) ^ 64 = 18446744073709551616 := by norm_num
  rw [fil_compress_page_ok ht hcm0 halg hcc]
  obtain ⟨hL, hty, hchk, halg8, halg2, hsz, hseg⟩ :=
    compressOk_reads env space buf obuf len block_size e pl hob h42 hpl0 hpl
      hlen hdvd
  have halg8f : mach_read_from_8 (compressOkResult env space buf obuf len
      block_size e pl).page FIL_PAGE_FILE_FLUSH_LSN_OR_KEY_VERSION =
      env.comp_method := by
    rw [halg8, hp64]
    exact Nat.mod_eq_of_lt (by omega)
  have halg2f : e = true → mach_read_from_2 (compressOkResult env space buf
      obuf len block_size e pl).page
      (FIL_PAGE_DATA + FIL_PAGE_COMPRESSED_SIZE) = env.comp_method := by
    intro he
    rw [halg2 he, hp16]
    exact Nat.mod_eq_of_lt (by omega)
  refine ⟨halg8f, halg2f, ?_⟩
  refine header_read_of_reads hty ?_ halg8f halg2f
  rw [hsz, hp16]
  exact Nat.mod_eq_of_lt (by omega)

/-- C7 (amended): for every successful compression result, when the
persistent-trim policy (srv_use_trim) is enabled, the reported output length
equals header_len + payload_len rounded up to the block size (which defaults
to 512 when the caller passes 0 to the unsigned block-size parameter), this
value never exceeds the page size, and every byte between the payload end
and the rounded boundary is zero; when the policy is disabled the source
instead zeroes the rest of the page and reports the full page length. -/
theorem C7_alignment_invariant (env : PCEnv) (space : Option Bool)
    (buf obuf : List Nat) (len level block_size : Nat) (e : Bool) (c : Codec)
    (pl : List Nat)
    (ht : ¬ ineligibleType (fil_page_get_type buf))
    (hcm0 : env.comp_method ≠ PAGE_UNCOMPRESSED)
    (halg : env.algos env.comp_method = some c)
    (hcc : codecCompress c buf (resolveLevel env level)
      (env.psize - pageHeaderLen e) = some pl)
    (hob : obuf.length = env.psize) (h42 : 42 ≤ env.psize)
    (hdvd : blockSizeOf block_size ∣ env.psize)
    (htrim : env.srv_use_trim = true) :
    (fil_compress_page env space buf obuf len level block_size e).out_len =
      alignUp (pageHeaderLen e + pl.length) (blockSizeOf block_size) ∧
    (fil_compress_page env space buf obuf len level block_size e).out_len ≤
      env.psize ∧
    (∀ k, pageHeaderLen e + pl.length ≤ k →
      k < (fil_compress_page env space buf obuf len level block_size
        e).out_len →
      (fil_compress_page env space buf obuf len level block_size
        e).page.getD k 0 = 0) := by
  obtain ⟨hcomp, hpl0, hplcap⟩ := codecCompress_some hcc
  have hbs := blockSizeOf_pos block_size
  have hhl1 : 40 ≤ pageHeaderLen e := by
    cases e <;> simp [pageHeaderLen, FIL_PAGE_DATA, FIL_PAGE_COMPRESSED_SIZE,
      FIL_PAGE_COMPRESSION_METHOD_SIZE]
  have hhl2 : pageHeaderLen e ≤ 42 := by
    cases e <;> simp [pageHeaderLen, FIL_PAGE_DATA, FIL_PAGE_COMPRESSED_SIZE,
      FIL_PAGE_COMPRESSION_METHOD_SIZE]
  have hpl : pl.length + pageHeaderLen e ≤ env.psize := by omega
  rw [fil_compress_page_ok ht hcm0 halg hcc]
  have hlen1 : (compressOkResult env space buf obuf len block_size e
      pl).out_len = alignedSize (pl.length + pageHeaderLen e)
      (blockSizeOf block_size) := by
    rw [compressOk_out_len, htrim]
    simp only [reduceIte]
  refine ⟨?_, ?_, ?_⟩
  · rw [hlen1, Nat.add_comm (pageHeaderLen e) pl.length]
    exact alignedSize_eq_alignUp hbs
  · rw [hlen1]
    exact alignedSize_le hbs hdvd hpl
  · intro k hk1 hk2
    rw [hlen1] at hk2
    exact compressOk_gap_zero env space buf obuf len block_size e pl hob h42
      hpl htrim k (by omega) hk2

/-- C1: decompressing the physical page produced by fil_compress_page
reproduces exactly the original logical page, for every codec that satisfies
its round-trip contract on that page, every compression level, every block
size in {512, 1024, 4096}, and every logical page whose type is eligible for
compression (pages already carrying either compressed marker excluded).
Both paths are covered: on codec success the compressed page decodes back to
the original, and on codec failure the original page is returned and passes
through fil_decompress_page unchanged. -/
theorem C1_compress_decompress_roundtrip (env : PCEnv) (space : Option Bool)
    (page obuf : List Nat) (level block_size : Nat) (e : Bool) (c : Codec)
    (page_buf : Option (List Nat)) (ws : Option Nat) (re : Bool)
    (hpage : page.length = env.psize) (hob : obuf.length = env.psize)
    (hps : env.psize ≤ 65536)
    (hbs : block_size = 512 ∨ block_size = 1024 ∨ block_size = 4096)
    (hdvd : block_size ∣ env.psize) (hpos : 0 < env.psize)
    (ht1 : ¬ ineligibleType (fil_page_get_type page))
    (ht2 : fil_page_get_type page ≠ FIL_PAGE_PAGE_COMPRESSED_ENCRYPTED)
    (hcm : env.comp_method < 65536)
    (halg : env.algos env.comp_method = some c)
    (hrt : ∀ lv cap pl, c.comp page lv cap = some pl →
      c.decomp pl env.psize = some page) :
    (fil_decompress_page env page_buf
      (fil_compress_page env space page obuf env.psize level block_size
        e).page env.psize ws re).buf = page := by
  have h512 : 512 ≤ env.psize := by
    rcases hbs with rfl | rfl | rfl
    · exact Nat.le_of_dvd hpos hdvd
    · have := Nat.le_of_dvd hpos hdvd; omega
    · have := Nat.le_of_dvd hpos hdvd; omega
  have h42 : 42 ≤ env.psize := by omega
  have hbsq : blockSizeOf block_size = block_size := by
    unfold blockSizeOf
    rw [if_neg (by rcases hbs with rfl | rfl | rfl <;> decide)]
  have hdvd2 : blockSizeOf block_size ∣ env.psize := by rw [hbsq]; exact hdvd
  have hty1 : fil_page_get_type page ≠ FIL_PAGE_PAGE_COMPRESSED := fun hx =>
    ht1 (Or.inr (Or.inr (Or.inr hx)))
  have hhl1 : 40 ≤ pageHeaderLen e := by
    cases e <;> simp [pageHeaderLen, FIL_PAGE_DATA, FIL_PAGE_COMPRESSED_SIZE,
      FIL_PAGE_COMPRESSION_METHOD_SIZE]
  have hhl2 : pageHeaderLen e ≤ 42 := by
    cases e <;> simp [pageHeaderLen, FIL_PAGE_DATA, FIL_PAGE_COMPRESSED_SIZE,
      FIL_PAGE_COMPRESSION_METHOD_SIZE]
  by_cases hcm0 : env.comp_method = PAGE_UNCOMPRESSED
  · have hpass : (fil_compress_page env space page obuf env.psize level
        block_size e).page = page := by
      unfold fil_compress_page
      rw [if_neg ht1, if_pos hcm0]
      rfl
    rw [hpass, decompress_pass_of_type hty1 ht2]
  · cases hcc : codecCompress c page (resolveLevel env level)
        (env.psize - pageHeaderLen e) with
    | none =>
        rw [fil_compress_page_err ht1 hcm0 halg hcc]
        show (fil_decompress_page env page_buf page env.psize ws re).buf =
          page
        rw [decompress_pass_of_type hty1 ht2]
    | some pl =>
        obtain ⟨hcomp, hpl0, hplcap⟩ := codecCompress_some hcc
        have hpl : pl.length + pageHeaderLen e ≤ env.psize := by omega
        have hp16 : (2 : Nat) ^ 16 = 65536 := by norm_num
        have hp64 : (2 : Nat) ^ 64 = 18446744073709551616 := by norm_num
        rw [fil_compress_page_ok ht1 hcm0 halg hcc]
        obtain ⟨hL, hty, hchk, halg8, halg2, hsz, hseg⟩ :=
          compressOk_reads env space page obuf env.psize block_size e pl hob
            h42 hpl0 hpl rfl hdvd2
        set pg := (compressOkResult env space page obuf env.psize block_size
          e pl).page with hpg
        have hsz2 : mach_read_from_2 pg FIL_PAGE_DATA = pl.length := by
          rw [hsz, hp16]
          exact Nat.mod_eq_of_lt (by omega)
        have halg8f : mach_read_from_8 pg
            FIL_PAGE_FILE_FLUSH_LSN_OR_KEY_VERSION = env.comp_method := by
          rw [halg8, hp64]
          exact Nat.mod_eq_of_lt (by omega)
        have halg2f : e = true → mach_read_from_2 pg
            (FIL_PAGE_DATA + FIL_PAGE_COMPRESSED_SIZE) = env.comp_method := by
          intro he
          rw [halg2 he, hp16]
          exact Nat.mod_eq_of_lt (by omega)
        have hread : fil_page_header_read pg =
            some (pageHeaderLen e, pl.length, env.comp_method) :=
          header_read_of_reads hty hsz2 halg8f halg2f
        unfold fil_decompress_page
        rw [hread]
        dsimp only
        rw [if_neg (fun hx => by
          rcases hx with hx | ⟨hx1, hx2⟩
          · exact hx hchk
          · cases e
            case false => exact hx1 (by rw [hty]; simp)
            case true => exact hx2 (by rw [hty]; simp))]
        rw [if_neg (by
          rintro (h0 | hgt)
          · omega
          · omega)]
        rw [halg]
        dsimp only
        have hdec : codecDecompress c ((pg.drop (pageHeaderLen e)).take
            pl.length) env.psize env.psize = some page := by
          unfold codecDecompress
          rw [hseg, hrt (resolveLevel env level)
            (env.psize - pageHeaderLen e) pl hcomp]
          dsimp only
          rw [if_neg (by
            rw [hpage]
            rintro (h0 | hgt) <;> omega)]
        rw [hdec]
        dsimp only
        rw [take_writeBytes_zero]
        exact writeBytes_zero_full (by rw [hpage, hL])

/-- C2 (code-bug evidence): decoding a buffer whose header carries the
compressed type marker, the no-checksum magic, a valid payload length 1 and
the unregistered algorithm id 99, with report mode requested
(return_error = true), still takes the err_exit path with its unconditional
debug assertion instead of the error_return report path, because the
`if (return_error)` statements after each `goto err_exit` are unreachable;
the output buffer is nevertheless left untouched. -/
theorem C2_report_mode_unknown_alg_asserts :
    fil_decompress_page (envFail 64) none c2buf 64 none true =
      assertFailResult c2buf none CorruptKind.unknownAlg := by
  decide

/-- C3 counterexample: with the encrypted variant requested, a successful
fil_compress_page call still writes the 8-byte algorithm-id field at
FIL_PAGE_FILE_FLUSH_LSN_OR_KEY_VERSION (the output buffer held zeroes there
beforehand), so the field is not present only in the non-encrypted
variant. -/
theorem C3_encrypted_counterexample :
    mach_read_from_8 (zpage 512) FIL_PAGE_FILE_FLUSH_LSN_OR_KEY_VERSION =
      0 ∧
    (fil_compress_page (envA 512 true) none (tpage 512) (zpage 512) 512 6 512
      true).outcome = CompOutcome.ok ∧
    mach_read_from_8 (fil_compress_page (envA 512 true) none (tpage 512)
      (zpage 512) 512 6 512 true).page
      FIL_PAGE_FILE_FLUSH_LSN_OR_KEY_VERSION = PAGE_ZLIB_ALGORITHM := by
  refine ⟨by decide, by decide, by decide⟩

/-- C7 counterexample: with srv_use_trim disabled, a successful compression
of a 1024-byte page with payload length 2 and block size 512 reports output
length 1024 (the full page), not the block-aligned value 512. -/
theorem C7_trim_off_counterexample :
    (fil_compress_page (envA 1024 false) none (tpage 1024) (zpage 1024) 1024
      6 512 false).outcome = CompOutcome.ok ∧
    mach_read_from_2 (fil_compress_page (envA 1024 false) none (tpage 1024)
      (zpage 1024) 1024 6 512 false).page FIL_PAGE_DATA = 2 ∧
    alignUp (pageHeaderLen false + 2) 512 = 512 ∧
    (fil_compress_page (envA 1024 false) none (tpage 1024) (zpage 1024) 1024
      6 512 false).out_len = 1024 := by
  refine ⟨by decide, by decide, by decide, by decide⟩

theorem C1_compress_decompress_roundtrip_witness :
    (fil_decompress_page (envA 512 true) none
      (fil_compress_page (envA 512 true) none (tpage 512) (zpage 512) 512 6
        512 true).page 512 none false).buf = tpage 512 :=
  C1_compress_decompress_roundtrip (envA 512 true) none (tpage 512)
    (zpage 512) 6 512 true (cPage (tpage 512)) none none false
    (by decide) (by decide) (by decide) (Or.inl rfl) (by decide) (by decide)
    (by decide) (by decide) (by decide) rfl
    (fun lv cap pl h => by
      have h2 : (if 2 ≤ cap then some [1, 2]
          else (none : Option (List Nat))) = some pl := h
      show (if pl = [1, 2] then some (tpage 512) else none) = some (tpage 512)
      split at h2
      · obtain rfl : pl = [1, 2] := by
          injection h2 with hx
          exact hx.symm
        simp
      · simp at h2)

theorem C3_algorithm_id_fields_witness :
    fil_page_header_read (fil_compress_page (envA 512 true) none (tpage 512)
      (zpage 512) 512 6 512 true).page = some (pageHeaderLen true, 2, 1) :=
  (C3_algorithm_id_fields (envA 512 true) none (tpage 512) (zpage 512) 512 6
    512 true (cPage (tpage 512)) [1, 2] (by decide) (by decide) rfl rfl
    (by decide) (by decide) (by decide) rfl (by decide) (by decide)).2.2

theorem C4_header_roundtrip_witness :
    fil_page_header_read (fil_page_header_write (tpage 64) (zpage 64) 3 5
      true) = some (pageHeaderLen true, 5, 3) :=
  C4_header_roundtrip (tpage 64) (zpage 64) 3 5 64 true (by decide)
    (by decide) (by decide) (by decide) (by decide) (by decide)

theorem C5_compress_failure_fallback_witness :
    (fil_compress_page (envFail 64) (some false) (tpage 64) (zpage 64) 64 6
      512 false).page = tpage 64 ∧
    (fil_compress_page (envFail 64) (some false) (tpage 64) (zpage 64) 64 6
      512 false).out_len = 64 :=
  C5_compress_failure_fallback (envFail 64) (some false) (tpage 64)
    (zpage 64) 64 6 512 false cFailCodec (by decide) (by decide) rfl rfl

theorem C6_ineligible_or_none_passthrough_witness :
    (fil_compress_page (envFail 64) none (zpage 64) (zpage 64) 64 6 512
      false).page = zpage 64 ∧
    (fil_compress_page (envFail 64) none (zpage 64) (zpage 64) 64 6 512
      false).out_len = 64 ∧
    (fil_compress_page (envFail 64) none (zpage 64) (zpage 64) 64 6 512
      false).codec_called = false :=
  C6_ineligible_or_none_passthrough (envFail 64) none (zpage 64) (zpage 64)
    64 6 512 false (Or.inl (by decide))

theorem C7_alignment_invariant_witness :
    (fil_compress_page (envA 512 true) none (tpage 512) (zpage 512) 512 6 512
      false).out_len = alignUp (pageHeaderLen false + 2) (blockSizeOf 512) :=
  (C7_alignment_invariant (envA 512 true) none (tpage 512) (zpage 512) 512 6
    512 false (cPage (tpage 512)) [1, 2] (by decide) (by decide) rfl rfl
    (by decide) (by decide) (by decide) rfl).1

theorem C8_unknown_marker_passthrough_witness :
    fil_decompress_page (envFail 64) none (tpage 64) 64 (some 7) true =
      { buf := tpage 64, outcome := .notCompressed, write_size := some 7,
        decompressed_inc := false } :=
  C8_unknown_marker_passthrough (envFail 64) none (tpage 64) 64 (some 7) true
    (by decide) (by decide)

theorem C9_warn_at_most_once_witness :
    ((compressTrace (envFail 64) false [cCall, cCall]).getD 1
      dResult).warned = false :=
  C9_warn_at_most_once (envFail 64) [cCall, cCall] false 0 1 dResult
    (by decide) (by decide) (by decide)

theorem C10_ineligible_counted_as_error_witness :
    (fil_compress_page (envFail 64) (some false) (zpage 64) (zpage 64) 64 6
      512 false).error_inc = true ∧
    (some false = some false →
      (fil_compress_page (envFail 64) (some false) (zpage 64) (zpage 64) 64 6
        512 false).warned = true) :=
  C10_ineligible_counted_as_error (envFail 64) (some false) (zpage 64)
    (zpage 64) 64 6 512 false (by decide)
